import Mathlib

/-!
Shallow embedding of `src/api/worker/search/SearchFacade.js` (encrypted
full-text search core of the Tutanota mail client).

Modelling conventions:
* Entity ids (generated ids, bytewise-comparable strings in the source) are
  modelled as `Nat`; `firstBiggerThanSecond a b` is `b < a` and
  `compareNewestFirst` sorts descending by id.
* Encryption is deterministic and injective, so the store is modelled in
  plaintext keyed by the plaintext values: `decryptSearchIndexEntry` becomes a
  projection, the 32-bit `arrayHash` of the encrypted id prefix becomes an
  arbitrary (collision-capable) function `idHash : Nat → Nat` of the id, and
  the `ElementData` row addressed by the base64 encrypted id becomes
  `elementListId : Nat → Option Nat` (the row's first component, the listId).
* Optional JS numbers are `Option Int` / `Option Nat`; JS truthiness tests on
  them (`if (x)`, `!x`, `x ? a : b`) are translated by `truthyInt` /
  `truthyNum`, which are false exactly on `none` and `some 0`, as in JS.
* Promises are evaluated sequentially (the source serialises all store reads
  in one transaction; the bounded-parallel lookups of the result assembler are
  modelled in issue order).  Rejection by `NotFound` / `NotAuthorized` /
  other errors is an explicit `Except`.
-/

namespace TutanotaSearch

/-- JS truthiness of an optional number: `null`/`undefined` and `0` are falsy. -/
def truthyNum : Option Nat → Bool
  | none => false
  | some n => n != 0

/-- JS truthiness of an optional (possibly negative) number. -/
def truthyInt : Option Int → Bool
  | none => false
  | some t => t != 0

/-- A decrypted search-index metadata row entry (`SearchIndexMetadataEntry`):
one posting-chunk descriptor. -/
structure ChunkDescriptor where
  key : Nat
  size : Nat
  app : Nat
  typ : Nat
deriving Repr, DecidableEq

/-- A decrypted posting entry (`SearchIndexEntry`). -/
structure SearchIndexEntry where
  id : Nat
  attr : Nat
  positions : List Nat
deriving Repr, DecidableEq

/-- An encrypted posting entry paired with the hash of its encrypted id
(`EncryptedSearchIndexEntryWithHash`).  The entry itself is carried in
plaintext (see the modelling conventions above). -/
structure EncEntryWithHash where
  entry : SearchIndexEntry
  idHash : Nat
deriving Repr, DecidableEq

/-- `KeyToEncryptedIndexEntries`: the gathered encrypted entries of one search
token. -/
structure KeyToEncryptedIndexEntries where
  indexKey : String
  indexEntries : List EncEntryWithHash
deriving Repr, DecidableEq

/-- `KeyToIndexEntries`: the decrypted entries of one search token. -/
structure KeyToIndexEntries where
  indexKey : String
  indexEntries : List SearchIndexEntry
deriving Repr, DecidableEq

/-- A type reference, modelled as an (app, type) code pair. -/
abbrev TypeRefT := Nat × Nat

/-- `SearchRestriction`.  `end_` stands for the source's `end` field. -/
structure SearchRestriction where
  type : TypeRefT
  attributeIds : Option (List Nat)
  listId : Option Nat
  start : Option Int
  end_ : Option Int
deriving Repr, DecidableEq

/-- `SearchResult`: the user-facing result, which doubles as the pagination
cursor (`lastReadSearchIndexRow` holds one `(token, lastReadRowKey)` pair per
search token). -/
structure SearchResult where
  query : String
  restriction : SearchRestriction
  results : List (Nat × Nat)
  currentIndexTimestamp : Int
  moreResultsEntries : List SearchIndexEntry
  lastReadSearchIndexRow : List (String × Option Nat)
  matchWordOrder : Bool
deriving Repr, DecidableEq

/-- Value type constant `EC.ValueType.String` (only equality with it matters). -/
def valueTypeString : Nat := 0

/-- Association type constant `EC.AssociationType.Aggregation`. -/
def associationTypeAggregation : Nat := 1

/-- Cardinality constant `EC.Cardinality.Any`. -/
def cardinalityAny : Nat := 2

/-- A value description in a type model (`model.values[name]`). -/
structure ValueInfo where
  id : Nat
  typ : Nat
deriving Repr, DecidableEq

/-- An association description in a type model (`model.associations[name]`). -/
structure AssociationInfo where
  id : Nat
  typ : Nat
  refType : Nat
  cardinality : Nat
deriving Repr, DecidableEq

/-- A type model (`TypeModel`) as exposed by the type-model registry. -/
structure TypeModel where
  app : Nat
  values : List (String × ValueInfo)
  associations : List (String × AssociationInfo)
deriving Repr

/-- A dynamic entity value: a string attribute, an aggregated sub-entity (an
association with cardinality other than `Any`), a list of aggregated
sub-entities (cardinality `Any`), or a missing/other value. -/
inductive EntityValue : Type where
  | vstring (s : String)
  | vaggSingle (attrs : List (String × EntityValue))
  | vaggList (es : List (List (String × EntityValue)))
  | vnull
deriving Repr

/-- A dynamic entity: a finite attribute-name/value map. -/
abbrev Entity := List (String × EntityValue)

/-- Errors of the entity loader. -/
inductive LoadError : Type where
  | notFound
  | notAuthorized
  | other
deriving Repr, DecidableEq

/-- The collaborators and stores the search facade reads from.  All reads are
pure snapshots (the source serialises them in read transactions). -/
structure Env where
  /-- Decrypted metadata rows of a token (ascending by chunk key as stored);
  empty when the metadata row is absent. -/
  meta : String → List ChunkDescriptor
  /-- Posting-chunk content by chunk key; empty when absent. -/
  chunk : Nat → List SearchIndexEntry
  /-- Hash of the encrypted id prefix, as a function of the id. -/
  idHash : Nat → Nat
  /-- The listId of the `ElementData` row of an id, `none` when absent. -/
  elementListId : Nat → Option Nat
  /-- `timestampToGeneratedId`. -/
  tsToId : Int → Nat
  /-- `typeRefToTypeInfo`: numeric (appId, typeId) of a type reference. -/
  typeInfoOf : TypeRefT → Nat × Nat
  /-- The tokenizer. -/
  tokenize : String → List String
  /-- The suggestion collaborator's completions of a token. -/
  getSuggestions : String → List String
  /-- Types for which a suggestion facade is registered. -/
  suggestionTypes : List TypeRefT
  /-- The distinguished `MailTypeRef`. -/
  mailTypeRef : TypeRefT
  /-- The mail indexer's current index horizon. -/
  currentIndexTimestamp : Int
  /-- `Date.now()` at page start. -/
  nowMs : Int
  /-- The `FULL_INDEXED_TIMESTAMP` sentinel. -/
  fullIndexedTimestamp : Int
  /-- The `NOTHING_INDEXED_TIMESTAMP` sentinel. -/
  nothingIndexedTimestamp : Int
  /-- The entity loader: `load(typeRef, idTuple)`. -/
  loadEntity : TypeRefT → Nat × Nat → Except LoadError Entity
  /-- The type-model registry (`resolveTypeReference`). -/
  resolveRef : TypeRefT → TypeModel

/-- JS `String.startsWith`. -/
def jsStartsWith (s pre : String) : Bool := pre.data.isPrefixOf s.data

/-- JS `String.endsWith`. -/
def jsEndsWith (s suf : String) : Bool := suf.data.isSuffixOf s.data

/-- The non-`end` branch of `_getSearchEndTimestamp`: the type-dependent
default search horizon. -/
def defaultEndHorizon (env : Env) (r : SearchRestriction) : Int :=
  if r.type = env.mailTypeRef then
    if env.currentIndexTimestamp = env.nothingIndexedTimestamp then env.nowMs
    else env.currentIndexTimestamp
  else env.fullIndexedTimestamp

/-- `_getSearchEndTimestamp`. -/
def getSearchEndTimestamp (env : Env) (r : SearchRestriction) : Int :=
  if truthyInt r.end_ then r.end_.getD 0 else defaultEndHorizon env r

/-- `_isValidAttributeAndTime`: the per-entry attribute/time filter.
`firstBiggerThanSecond a b` of the source is `b < a` on ids. -/
def isValidAttributeAndTime (r : SearchRestriction) (entry : SearchIndexEntry)
    (minIncludedId : Nat) (maxExcludedId : Option Nat) : Bool :=
  if match r.attributeIds with
     | some ids => !ids.contains entry.attr
     | none => false then false
  else if match maxExcludedId with
          | some mx => !decide (entry.id < mx)
          | none => false then false
  else !decide (entry.id < minIncludedId)

/-- The per-entry acceptance test of `_filterByTypeAndAttributeAndTime`:
`_isValidAttributeAndTime` applied at the bounds computed there. -/
def acceptEntry (env : Env) (r : SearchRestriction) (entry : SearchIndexEntry) : Bool :=
  let minIncludedId := env.tsToId (getSearchEndTimestamp env r)
  let maxExcludedId := if truthyInt r.start then some (env.tsToId (r.start.getD 0 + 1)) else none
  isValidAttributeAndTime r entry minIncludedId maxExcludedId

/-- The AND-merge membership computation shared by `_filterByEncryptedId` and
`_filterByTypeAndAttributeAndTime`: starting from `none`, the first list seeds
the matching set and each further list intersects it. -/
def intersectMemb : Option (List Nat) → List (List Nat) → Option (List Nat)
  | acc, [] => acc
  | none, l :: ls => intersectMemb (some l) ls
  | some s, l :: ls => intersectMemb (some (l.filter (s.contains ·))) ls

/-- Membership in an optional matching set (`Set.has`; an unset matching set
never passes the filter). -/
def membOpt (s : Option (List Nat)) (x : Nat) : Bool :=
  match s with
  | some l => l.contains x
  | none => false

/-- `_filterByEncryptedId`: keep only entries whose encrypted-id hash occurs
for every search token. -/
def filterByEncryptedId (results : List KeyToEncryptedIndexEntries) :
    List KeyToEncryptedIndexEntries :=
  let matchingEncIds := intersectMemb none (results.map (fun r => r.indexEntries.map (·.idHash)))
  results.map (fun r =>
    { r with indexEntries := r.indexEntries.filter (fun e => membOpt matchingEncIds e.idHash) })

/-- `_decryptSearchResult`: decryption is a projection in this model. -/
def decryptSearchResult (results : List KeyToEncryptedIndexEntries) : List KeyToIndexEntries :=
  results.map (fun r =>
    { indexKey := r.indexKey, indexEntries := r.indexEntries.map (·.entry) })

/-- `_filterByTypeAndAttributeAndTime`: per-entry attribute/time filter, then
keep only ids occurring for every search token. -/
def filterByTypeAndAttributeAndTime (env : Env) (results : List KeyToIndexEntries)
    (r : SearchRestriction) : List KeyToIndexEntries :=
  let results1 := results.map (fun kti =>
    { kti with indexEntries := kti.indexEntries.filter (acceptEntry env r ·) })
  let matchingIds := intersectMemb none (results1.map (fun kti => kti.indexEntries.map (·.id)))
  results1.map (fun kti =>
    { kti with indexEntries := kti.indexEntries.filter (fun e => membOpt matchingIds e.id) })

/-- `_reduceWords`: with `matchWordOrder`, keep a first-word entry iff its
positions can be extended by every following word at offset `i` within the
same id and attribute; otherwise the first word's entries are the answer. -/
def reduceWords (results : List KeyToIndexEntries) (matchWordOrder : Bool) :
    List SearchIndexEntry :=
  match results with
  | [] => []
  | r0 :: rest =>
    if matchWordOrder then
      r0.indexEntries.filter (fun firstWordEntry =>
        let finalPositions := (List.enumFrom 1 rest).foldl
          (fun filteredPositions ikti =>
            match ikti.2.indexEntries.find? (fun e =>
                e.id == firstWordEntry.id && e.attr == firstWordEntry.attr) with
            | some entry =>
              filteredPositions.filter (fun p => entry.positions.any (fun q => q == p + ikti.1))
            | none => [])
          firstWordEntry.positions
        decide (finalPositions.length > 0))
    else r0.indexEntries

/-- The body of `_reduceToUniqueElementIds`' filter, carrying the set of ids
seen so far (`uniqueIds`) and the kept entries. -/
def uniqueStep (previousResult : SearchResult) (st : List Nat × List SearchIndexEntry)
    (e : SearchIndexEntry) : List Nat × List SearchIndexEntry :=
  if !st.1.contains e.id && !previousResult.results.any (fun rr => rr.2 == e.id) then
    (e.id :: st.1, st.2 ++ [e])
  else st

/-- `_reduceToUniqueElementIds`: keep the first entry of each id that does not
already occur in the previous results. -/
def reduceToUniqueElementIds (results : List SearchIndexEntry) (previousResult : SearchResult) :
    List SearchIndexEntry :=
  (results.foldl (uniqueStep previousResult) ([], [])).2

/-- Insertion step of the newest-first (descending id) entry sort. -/
def insertNewestEntry (e : SearchIndexEntry) : List SearchIndexEntry → List SearchIndexEntry
  | [] => [e]
  | x :: xs => if e.id > x.id then e :: x :: xs else x :: insertNewestEntry e xs

/-- `indexEntries.sort(compareNewestFirst)`: sort entries descending by id. -/
def sortNewestFirst (l : List SearchIndexEntry) : List SearchIndexEntry :=
  l.foldr insertNewestEntry []

/-- Insertion step of the newest-first (listId, id) pair sort. -/
def insertNewestPair (p : Nat × Nat) : List (Nat × Nat) → List (Nat × Nat)
  | [] => [p]
  | q :: qs => if p.2 > q.2 then p :: q :: qs else q :: insertNewestPair p qs

/-- `results.sort(compareNewestFirst)` on (listId, id) tuples: `compareNewestFirst`
compares the element id, the second tuple component. -/
def sortPairsNewestFirst (l : List (Nat × Nat)) : List (Nat × Nat) :=
  l.foldr insertNewestPair []

/-- The row-selection loop of `_findEntriesForSearchToken`: with a truthy
`maxResults`, take descriptors whose key is below the cursor while fewer than
1000 entries are selected, tracking the key of the last taken descriptor
(0 when none is taken); with a falsy `maxResults`, take everything and leave
`lastReadRowId` at 0. -/
def selectRowsToRead (filteredRows : List ChunkDescriptor) (fromRow : Option Nat)
    (maxResults : Option Nat) : List ChunkDescriptor × Nat :=
  if truthyNum maxResults then
    let st := filteredRows.foldl
      (fun (st : List ChunkDescriptor × Nat × Nat) r =>
        if (!truthyNum fromRow || decide (r.key < fromRow.getD 0))
            && decide (st.2.1 < 1000) then
          (st.1 ++ [r], st.2.1 + r.size, r.key)
        else st)
      ([], 0, 0)
    (st.1, st.2.2)
  else (filteredRows, 0)

/-- `_findEntriesForSearchToken`: read the token's metadata, keep descriptors
of the restriction's type, newest first, select the page's descriptors, read
and hash their entries, and store the advanced cursor back into the row. -/
def findEntriesForSearchToken (env : Env) (restriction : SearchRestriction)
    (searchTokenInfo : String × Option Nat) (maxResults : Option Nat) :
    (String × Option Nat) × KeyToEncryptedIndexEntries :=
  let searchToken := searchTokenInfo.1
  let fromRow := searchTokenInfo.2
  let safeRows := env.meta searchToken
  let typeInfo := env.typeInfoOf restriction.type
  let filteredRows :=
    (safeRows.filter (fun r => r.app == typeInfo.1 && r.typ == typeInfo.2)).reverse
  let sel := selectRowsToRead filteredRows fromRow maxResults
  let indexEntries := (sel.1.map (fun d => env.chunk d.key)).flatten
  let withHash := indexEntries.map (fun e => { entry := e, idHash := env.idHash e.id })
  ((searchToken, some sel.2),
   { indexKey := searchToken, indexEntries := withHash })

/-- `_findIndexEntries`: run `_findEntriesForSearchToken` for every cursor row,
returning the advanced rows and the gathered entries. -/
def findIndexEntries (env : Env) (searchResult : SearchResult) (maxResults : Option Nat) :
    List (String × Option Nat) × List KeyToEncryptedIndexEntries :=
  let pairs := searchResult.lastReadSearchIndexRow.map
    (fun ti => findEntriesForSearchToken env searchResult.restriction ti maxResults)
  (pairs.map (·.1), pairs.map (·.2))

/-- The body of `_filterByListIdAndGroupSearchResults`: sort matches newest
first, take at most `maxResults || length + 1` of them, and append the
`(listId, id)` of each whose `ElementData` row exists and passes the listId
restriction, stopping once the live result list holds `maxResults` entries. -/
def filterByListIdAndGroupSearchResults (env : Env) (indexEntries : List SearchIndexEntry)
    (searchResult : SearchResult) (maxResults : Option Nat) : List (Nat × Nat) :=
  let sorted := sortNewestFirst indexEntries
  let bound := match maxResults with
    | some m => if m != 0 then m else sorted.length + 1
    | none => sorted.length + 1
  (sorted.take bound).foldl
    (fun res e =>
      if truthyNum maxResults && decide (res.length ≥ maxResults.getD 0) then res
      else
        match env.elementListId e.id with
        | some listId =>
          if match searchResult.restriction.listId with
             | none => true
             | some l => l == listId then
            res ++ [(listId, e.id)]
          else res
        | none => res)
    searchResult.results

/-- `_startOrContinueSearch`: one page of the pipeline, advancing the cursor
rows and appending to the results. -/
def startOrContinueSearch (env : Env) (searchResult : SearchResult) (maxResults : Option Nat) :
    SearchResult :=
  let found := findIndexEntries env searchResult maxResults
  let afterHash := filterByEncryptedId found.2
  let decrypted := decryptSearchResult afterHash
  let afterTime := filterByTypeAndAttributeAndTime env decrypted searchResult.restriction
  let entries := reduceWords afterTime searchResult.matchWordOrder
  let sr1 := { searchResult with lastReadSearchIndexRow := found.1 }
  let uniq := reduceToUniqueElementIds entries sr1
  { sr1 with results := filterByListIdAndGroupSearchResults env uniq sr1 maxResults }

/-- `getMoreSearchResults`: re-run the page pipeline on the existing result
with `moreResultCount` as the page size. -/
def getMoreSearchResults (env : Env) (searchResult : SearchResult) (moreResultCount : Nat) :
    SearchResult :=
  startOrContinueSearch env searchResult (some moreResultCount)

/-- The attribute names examined by `_containsSuggestionToken`: all value and
association names when `attributeIds` is unset, otherwise the names whose
value or association id matches (an unmatched id yields a name that resolves
to nothing, as `neverNull(undefined)` does in the source). -/
def attributeNamesOf (model : TypeModel) (attributeIds : Option (List Nat)) : List String :=
  match attributeIds with
  | none => model.values.map (·.1) ++ model.associations.map (·.1)
  | some ids => ids.map (fun i =>
      match model.values.find? (fun p => p.2.id == i) with
      | some p => p.1
      | none =>
        match model.associations.find? (fun p => p.2.id == i) with
        | some p => p.1
        | none => "")

/-- JS truthiness of an entity attribute value (an empty string is falsy,
aggregates are truthy, a missing value is falsy). -/
def valueTruthy : EntityValue → Bool
  | .vstring s => s != ""
  | .vnull => false
  | _ => true

/-- The aggregates of an association value: with cardinality `Any` the value
is the list of aggregates, otherwise the single aggregate is wrapped. -/
def aggregatesOf (cardinality : Nat) (v : EntityValue) : List Entity :=
  if cardinality == cardinalityAny then
    match v with
    | .vaggList es => es
    | _ => []
  else
    match v with
    | .vaggSingle e => [e]
    | _ => []

theorem sizeOf_lt_of_mem_aggregatesOf (c : Nat) (v : EntityValue) (a : Entity)
    (h : a ∈ aggregatesOf c v) : sizeOf a < sizeOf v := by
  unfold aggregatesOf at h
  split at h
  · cases v <;> simp at h
    case vaggList es =>
      have := List.sizeOf_lt_of_mem h
      simp only [EntityValue.vaggList.sizeOf_spec]
      omega
  · cases v <;> simp at h
    case vaggSingle e =>
      subst h
      simp only [EntityValue.vaggSingle.sizeOf_spec]
      omega

theorem sizeOf_snd_lt_of_find (entity : Entity) (p : String × EntityValue)
    (q : String × EntityValue → Bool) (h : entity.find? q = some p) :
    sizeOf p.2 < sizeOf entity := by
  have hm : p ∈ entity := List.mem_of_find?_eq_some h
  have h1 := List.sizeOf_lt_of_mem hm
  cases p with
  | mk a b => simp at h1 ⊢; omega

/-- `_containsSuggestionToken`: does some examined string value (descending
recursively through aggregation associations) contain a tokenized word
starting with the suggestion token? -/
def containsSuggestionToken (env : Env) (model : TypeModel) (attributeIds : Option (List Nat))
    (suggestionToken : String) (entity : Entity) : Bool :=
  (attributeNamesOf model attributeIds).any (fun attributeName =>
    match hfind : entity.find? (fun p => p.1 == attributeName) with
    | none => false
    | some nv =>
      if ((model.values.find? (fun p => p.1 == attributeName)).map
            (fun p => p.2.typ == valueTypeString)).getD false
          && valueTruthy nv.2 then
        match nv.2 with
        | .vstring s => (env.tokenize s).any (fun w => jsStartsWith w suggestionToken)
        | _ => false
      else
        match model.associations.find? (fun p => p.1 == attributeName) with
        | some na =>
          if na.2.typ == associationTypeAggregation && valueTruthy nv.2 then
            let refModel := env.resolveRef (model.app, na.2.refType)
            (aggregatesOf na.2.cardinality nv.2).attach.any
              (fun agg => containsSuggestionToken env refModel none suggestionToken agg.1)
          else false
        | none => false)
termination_by sizeOf entity
decreasing_by
  have h1 := sizeOf_lt_of_mem_aggregatesOf _ _ _ agg.2
  have h2 := sizeOf_snd_lt_of_find _ _ _ hfind
  omega

/-- The body of `_loadAndReduce`'s `Promise.reduce`: once `minSuggestionCount`
candidates passed, pass the accumulator through; otherwise load the candidate
entity, skipping it on `NotFound` or `NotAuthorized`, rejecting on any other
load error, and appending it when the suggestion-token check passes. -/
def loadAndReduceStep (env : Env) (restriction : SearchRestriction) (model : TypeModel)
    (suggestionToken : String) (minSuggestionCount : Nat)
    (finalResults : List (Nat × Nat)) (result : Nat × Nat) : Except Unit (List (Nat × Nat)) :=
  if finalResults.length ≥ minSuggestionCount then pure finalResults
  else
    match env.loadEntity restriction.type result with
    | .ok entity =>
      if containsSuggestionToken env model restriction.attributeIds suggestionToken entity
      then pure (finalResults ++ [result])
      else pure finalResults
    | .error .notFound => pure finalResults
    | .error .notAuthorized => pure finalResults
    | .error .other => Except.error ()

/-- `_loadAndReduce`: `Promise.reduce` over the candidate id tuples in order,
starting from the empty accumulator. -/
def loadAndReduce (env : Env) (restriction : SearchRestriction) (results : List (Nat × Nat))
    (suggestionToken : String) (minSuggestionCount : Nat) : Except Unit (List (Nat × Nat)) :=
  if results.length > 0 then
    results.foldlM
      (loadAndReduceStep env restriction (env.resolveRef restriction.type) suggestionToken
        minSuggestionCount)
      []
  else pure []

/-- The `matchWordOrder` flag computed by `search`: more than one token and
the query fully enclosed in double quotes. -/
def queryMatchWordOrder (env : Env) (query : String) : Bool :=
  decide ((env.tokenize query).length > 1)
    && jsStartsWith query "\"" && jsEndsWith query "\""

/-- The fresh `SearchResult` built at the start of `search`. -/
def initialSearchResult (env : Env) (query : String) (restriction : SearchRestriction) :
    SearchResult :=
  { query := query
    restriction := restriction
    results := []
    currentIndexTimestamp := getSearchEndTimestamp env restriction
    moreResultsEntries := []
    lastReadSearchIndexRow := (env.tokenize query).map (fun token => (token, none))
    matchWordOrder := queryMatchWordOrder env query }

/-- The final `result.results.sort(compareNewestFirst)` of `search`. -/
def sortResults (sr : SearchResult) : SearchResult :=
  { sr with results := sortPairsNewestFirst sr.results }

/-- `search`: tokenize the query, build the fresh result, and dispatch to the
single-term suggestion path (which passes the completions to
`_searchForTokens`, where they are ignored, and returns without the final
sort), the multi-term suggestion path (pop the last cursor row, run the
pipeline unbounded, sort, then reduce by the suggestion token), or the plain
path.  `_tryExtendIndex` only awaits the external indexer and is a no-op over
this read-only snapshot. -/
def search (env : Env) (query : String) (restriction : SearchRestriction)
    (minSuggestionCount : Nat) (maxResults : Option Nat) : Except Unit SearchResult :=
  let searchTokens := env.tokenize query
  let result := initialSearchResult env query restriction
  if searchTokens.length > 0 then
    let isFirstWordSearch := searchTokens.length = 1
    let hasSuggestionFacade := restriction.type ∈ env.suggestionTypes
    if 0 < minSuggestionCount ∧ isFirstWordSearch ∧ hasSuggestionFacade then
      let _suggestions := env.getSuggestions (searchTokens.headD "")
      Except.ok (startOrContinueSearch env result maxResults)
    else if 0 < minSuggestionCount ∧ ¬ isFirstWordSearch ∧ hasSuggestionFacade then
      let suggestionToken := ((result.lastReadSearchIndexRow.getLast?).getD ("", none)).1
      let result1 :=
        { result with lastReadSearchIndexRow := result.lastReadSearchIndexRow.dropLast }
      let result2 := startOrContinueSearch env result1 none
      let result3 := { result2 with results := sortPairsNewestFirst result2.results }
      match loadAndReduce env restriction result3.results suggestionToken minSuggestionCount with
      | .ok filteredResults => Except.ok (sortResults { result3 with results := filteredResults })
      | .error e => Except.error e
    else
      Except.ok (sortResults (startOrContinueSearch env result maxResults))
  else Except.ok result

/-- Iterated `getMoreSearchResults` calls with the given page sizes. -/
def applyGetMores (env : Env) (sr : SearchResult) : List Nat → SearchResult
  | [] => sr
  | c :: cs => applyGetMores env (getMoreSearchResults env sr c) cs

/-! Concrete collaborator snapshots used by the concrete theorems below. -/

/-- A minimal concrete snapshot: empty index, every id resolving to listId 5. -/
def env0 : Env :=
  { meta := fun _ => []
    chunk := fun _ => []
    idHash := fun n => n
    elementListId := fun _ => some 5
    tsToId := fun _ => 0
    typeInfoOf := fun _ => (0, 0)
    tokenize := fun _ => []
    getSuggestions := fun _ => []
    suggestionTypes := []
    mailTypeRef := (9, 9)
    currentIndexTimestamp := 0
    nowMs := 0
    fullIndexedTimestamp := 0
    nothingIndexedTimestamp := -1
    loadEntity := fun _ _ => Except.error LoadError.notFound
    resolveRef := fun _ => ⟨0, [], []⟩ }

/-- A restriction of type (0,0) without attribute, list or start constraints
(the end bound 5 maps to the minimal id 0, so every posting passes). -/
def rPlain : SearchRestriction := ⟨(0, 0), none, none, none, some 5⟩

/-- Scenario S3's store: one token ("alpha") whose single chunk (key 1) posts
the ids 100, 90, 80, all resolving to the listId 5. -/
def envS3 : Env :=
  { env0 with
    meta := fun _ => [⟨1, 3, 0, 0⟩]
    chunk := fun k => if k == 1 then [⟨100, 1, [1]⟩, ⟨90, 1, [1]⟩, ⟨80, 1, [1]⟩] else []
    tokenize := fun _ => ["alpha"] }

/-- Scenario S5's store: the sole query token "foo" has no postings of its
own, its completions include "food", which posts id 7 in chunk 1, and a
suggestion facade is registered for type (0,0). -/
def envC3 : Env :=
  { env0 with
    meta := fun t => if t == "food" then [⟨1, 1, 0, 0⟩] else []
    chunk := fun k => if k == 1 then [⟨7, 1, [0]⟩] else []
    tokenize := fun _ => ["foo"]
    getSuggestions := fun t => if t == "foo" then ["food", "fool", "foot"] else []
    suggestionTypes := [(0, 0)] }

/-- Claim C1 (code bug): with the S3 store, page one of `search("alpha", r, 0, 2)`
returns `[(5,100),(5,90)]` and slices off the already-read posting 80 without
preserving it anywhere, so `getMoreSearchResults(result, 2)` (whose cursor is
already past chunk 1) leaves the results unchanged instead of adding
`(5,80)`: the concatenated pages differ from the unbounded search
`[(5,100),(5,90),(5,80)]`, refuting pagination consistency and scenario S3. -/
theorem claim_C1_pagination :
    ((search envS3 "alpha" rPlain 0 (some 2)).toOption.map (·.results)
      = some [(5, 100), (5, 90)])
    ∧ ((search envS3 "alpha" rPlain 0 (some 2)).toOption.map
        (fun s => (getMoreSearchResults envS3 s 2).results)
      = some [(5, 100), (5, 90)])
    ∧ ((search envS3 "alpha" rPlain 0 none).toOption.map (·.results)
      = some [(5, 100), (5, 90), (5, 80)]) := by
  decide

/-- Claim C6 (code bug): with the S3 store, after the page stops early at
`maxResults = 2` the unconsumed matching entry (id 80) is not preserved:
`moreResultsEntries` stays empty, and no later `getMoreSearchResults` page
(three of them here) ever promotes id 80. -/
theorem claim_C6_more_results :
    ((search envS3 "alpha" rPlain 0 (some 2)).toOption.map (·.moreResultsEntries)
      = some [])
    ∧ ((search envS3 "alpha" rPlain 0 (some 2)).toOption.map
        (fun s => (applyGetMores envS3 s [2, 2, 2]).results)
      = some [(5, 100), (5, 90)]) := by
  decide

/-- Claim C2 (counterexample): with the S3 store the per-term cursor does not
decrease strictly monotonically across pages: it goes `some 1` (page 1),
`some 0` (page 2 reads nothing and resets the cursor to 0), and back to
`some 1` (page 3 re-reads chunk 1, whose key is not smaller than 0). -/
theorem claim_C2_counterexample :
    ((search envS3 "alpha" rPlain 0 (some 2)).toOption.map
        (fun s1 =>
          (s1.lastReadSearchIndexRow,
            (getMoreSearchResults envS3 s1 2).lastReadSearchIndexRow,
            (getMoreSearchResults envS3 (getMoreSearchResults envS3 s1 2) 2).lastReadSearchIndexRow))
      = some ([("alpha", some 1)], [("alpha", some 0)], [("alpha", some 1)])) := by
  decide

/-- Insertion step of the descending id sort. -/
def insertIdDesc (x : Nat) : List Nat → List Nat
  | [] => [x]
  | y :: ys => if x > y then x :: y :: ys else y :: insertIdDesc x ys

/-- Descending insertion sort on ids. -/
def idSortDesc (l : List Nat) : List Nat := l.foldr insertIdDesc []

/-- Modelled from the spec (claim C3): the single-term suggestion search is
the union of the postings of the suggestion collaborator's completions of the
sole term (restricted to the restriction's type), de-duplicated, sorted
newest first, and capped at `maxResults`.  Stated for comparison with the
code path, which ignores the completions. -/
def suggestionUnionIds (env : Env) (r : SearchRestriction) (token : String)
    (maxResults : Option Nat) : List Nat :=
  let typeInfo := env.typeInfoOf r.type
  let ids := ((env.getSuggestions token).map (fun c =>
    ((((env.meta c).filter (fun d => d.app == typeInfo.1 && d.typ == typeInfo.2)).map
        (fun d => env.chunk d.key)).flatten).map (·.id))).flatten
  (idSortDesc ids.dedup).take (maxResults.getD ids.length)

/-- Claim C3 (code bug): on the S5 store, the single-term suggestion path
returns no results at all — `_searchForTokens` ignores its `suggestions`
argument (`TODO take care of suggestions` in the source) and searches only
the original term "foo", which has no postings — while the claimed union of
the completions' postings is `[7]`. -/
theorem claim_C3_suggestions :
    ((search envC3 "foo" rPlain 5 (some 10)).toOption.map (·.results) = some [])
    ∧ suggestionUnionIds envC3 rPlain "foo" (some 10) = [7] := by
  decide

/-- The end timestamp as claim C4 reads it: `restriction.end` when present
(any value), otherwise the type-dependent default horizon. -/
def claimEndTimestamp (env : Env) (r : SearchRestriction) : Int :=
  match r.end_ with
  | some e => e
  | none => defaultEndHorizon env r

/-- Claim C4's acceptance predicate read literally: a restriction field
counts as set exactly when it is present. -/
def acceptClaimC4 (env : Env) (r : SearchRestriction) (entry : SearchIndexEntry) : Prop :=
  (r.attributeIds = none ∨ entry.attr ∈ r.attributeIds.getD [])
  ∧ env.tsToId (claimEndTimestamp env r) ≤ entry.id
  ∧ (r.start = none ∨ entry.id < env.tsToId (r.start.getD 0 + 1))

/-- The amended claim C4 predicate: a numeric restriction field counts as set
only when truthy (present and nonzero), matching the JS truthiness tests of
the source; in particular `start = 0` imposes no upper id bound and
`end = 0` falls back to the default horizon (via `getSearchEndTimestamp`). -/
def acceptAmendedC4 (env : Env) (r : SearchRestriction) (entry : SearchIndexEntry) : Prop :=
  (r.attributeIds = none ∨ entry.attr ∈ r.attributeIds.getD [])
  ∧ env.tsToId (getSearchEndTimestamp env r) ≤ entry.id
  ∧ (truthyInt r.start = false ∨ entry.id < env.tsToId (r.start.getD 0 + 1))

/-- The snapshot for claim C4's counterexample: `timestampToGeneratedId` is
truncation to a natural number. -/
def envC4 : Env := { env0 with tsToId := fun t => t.toNat }

/-- Claim C4's counterexample restriction: `start` is set to the timestamp 0. -/
def rC4 : SearchRestriction := ⟨(0, 0), none, none, some 0, some 5⟩

/-- Claim C4's counterexample entry. -/
def eC4 : SearchIndexEntry := ⟨7, 1, []⟩

/-- Claim C4 (counterexample): with `restriction.start = 0` (a set field),
the filter accepts id 7 although the claim requires `7 < tsToId(0 + 1) = 1`:
the source treats the falsy value 0 as unset. -/
theorem claim_C4_counterexample :
    acceptEntry envC4 rC4 eC4 = true ∧ ¬ acceptClaimC4 envC4 rC4 eC4 := by
  constructor
  · decide
  · intro h
    rcases h.2.2 with h' | h' <;> revert h' <;> decide

/-- Claim C4 (amended): the per-entry constraint filter accepts an entry iff
the attribute whitelist (when present) contains its attribute, its id is at
least `tsToId(endTimestamp)` (with the end timestamp falling back to the
type-dependent default horizon when `end` is absent or zero), and — when
`start` is truthy — its id is below `tsToId(start + 1)`. -/
theorem claim_C4_accept_characterization (env : Env) (r : SearchRestriction)
    (entry : SearchIndexEntry) :
    acceptEntry env r entry = true ↔ acceptAmendedC4 env r entry := by
  unfold acceptEntry isValidAttributeAndTime acceptAmendedC4
  cases hA : r.attributeIds with
  | none =>
    cases hS : truthyInt r.start <;>
      simp [hA, hS, List.elem_iff, Nat.not_lt, Nat.lt_iff_add_one_le] <;> tauto
  | some ids =>
    cases hS : truthyInt r.start <;>
      simp [hA, hS, List.elem_iff, Nat.not_lt, Nat.lt_iff_add_one_le] <;> tauto

/-- The page pipeline never changes the `matchWordOrder` flag. -/
theorem startOrContinueSearch_mwo (env : Env) (sr : SearchResult) (m : Option Nat) :
    (startOrContinueSearch env sr m).matchWordOrder = sr.matchWordOrder := rfl

/-- Claim C8: every result returned by `search` carries
`matchWordOrder = true` exactly when the tokenizer produced at least two
terms and the query starts and ends with a double quote. -/
theorem claim_C8_match_word_order (env : Env) (q : String) (r : SearchRestriction)
    (msc : Nat) (m : Option Nat) (sr : SearchResult)
    (hok : search env q r msc m = Except.ok sr) :
    (sr.matchWordOrder = true ↔
      (2 ≤ (env.tokenize q).length ∧ jsStartsWith q "\"" = true ∧ jsEndsWith q "\"" = true)) := by
  have hmwo : sr.matchWordOrder = queryMatchWordOrder env q := by
    simp only [search] at hok
    split at hok
    · split at hok
      · cases hok; rfl
      · split at hok
        · split at hok
          · cases hok; rfl
          · cases hok
        · cases hok; rfl
    · cases hok; rfl
  rw [hmwo]
  unfold queryMatchWordOrder
  simp only [Bool.and_eq_true, decide_eq_true_eq]
  constructor
  · rintro ⟨⟨h1, h2⟩, h3⟩; exact ⟨h1, h2, h3⟩
  · rintro ⟨h1, h2, h3⟩; exact ⟨⟨h1, h2⟩, h3⟩

/-- Witness for claim C8 at a concrete input. -/
theorem claim_C8_witness :
    search env0 "q" rPlain 0 none = Except.ok (initialSearchResult env0 "q" rPlain)
    ∧ ((initialSearchResult env0 "q" rPlain).matchWordOrder = true ↔
        (2 ≤ (env0.tokenize "q").length ∧ jsStartsWith "q" "\"" = true
          ∧ jsEndsWith "q" "\"" = true)) :=
  ⟨rfl, claim_C8_match_word_order env0 "q" rPlain 0 none _ rfl⟩

/-- The sequential position-reduction loop of `_reduceWords` equals a single
filter by the conjunction of all per-word conditions. -/
theorem phrase_foldl_eq_filter (e1 : SearchIndexEntry) (L : List (Nat × KeyToIndexEntries))
    (P0 : List Nat) :
    L.foldl (fun filteredPositions ikti =>
        match ikti.2.indexEntries.find? (fun e => e.id == e1.id && e.attr == e1.attr) with
        | some entry =>
          filteredPositions.filter (fun p => entry.positions.any (fun q => q == p + ikti.1))
        | none => []) P0
      = P0.filter (fun p => L.all (fun ikti =>
          match ikti.2.indexEntries.find? (fun e => e.id == e1.id && e.attr == e1.attr) with
          | some entry => entry.positions.any (fun q => q == p + ikti.1)
          | none => false)) := by
  induction L generalizing P0 with
  | nil => simp
  | cons hd tl ih =>
    simp only [List.foldl_cons, List.all_cons]
    cases hfind : hd.2.indexEntries.find? (fun e => e.id == e1.id && e.attr == e1.attr) with
    | none =>
      rw [ih]
      simp
    | some entry =>
      rw [ih, List.filter_filter]
      apply List.filter_congr
      intro p _
      rw [Bool.and_comm]

/-- Claim C5: with `matchWordOrder`, the phrase reducer keeps a first-word
entry `e1` exactly when some position `p` of `e1` is such that every later
word `i` has an entry (found by id and attribute equality with `e1`) whose
positions contain `p + i`; the code discards `e1` when some word has no such
entry, since the position set is emptied.  Without `matchWordOrder`, the
output is exactly the first word's entry list. -/
theorem claim_C5_reduce_words (r0 : KeyToIndexEntries) (rest : List KeyToIndexEntries) :
    reduceWords (r0 :: rest) true
      = r0.indexEntries.filter (fun e1 =>
          decide (0 < (e1.positions.filter (fun p =>
            (List.enumFrom 1 rest).all (fun ikti =>
              match ikti.2.indexEntries.find? (fun e => e.id == e1.id && e.attr == e1.attr) with
              | some ei => ei.positions.any (fun q => q == p + ikti.1)
              | none => false))).length))
    ∧ reduceWords (r0 :: rest) false = r0.indexEntries := by
  constructor
  · show r0.indexEntries.filter _ = _
    apply List.filter_congr
    intro e1 _
    rw [phrase_foldl_eq_filter]
  · rfl

/-- Claim C7's reading of `_loadAndReduce`: an explicitly early-stopping
recursion over the candidates in order that returns as soon as
`minSuggestionCount` candidates passed, skips a candidate on `NotFound` or
`NotAuthorized`, propagates any other load error, and otherwise appends the
candidates passing the suggestion-token check. -/
def loadAndReduceClaimGo (env : Env) (restriction : SearchRestriction) (model : TypeModel)
    (suggestionToken : String) (minSuggestionCount : Nat) :
    List (Nat × Nat) → List (Nat × Nat) → Except Unit (List (Nat × Nat))
  | acc, [] => Except.ok acc
  | acc, c :: cs =>
    if minSuggestionCount ≤ acc.length then Except.ok acc
    else
      match env.loadEntity restriction.type c with
      | Except.ok entity =>
        if containsSuggestionToken env model restriction.attributeIds suggestionToken entity then
          loadAndReduceClaimGo env restriction model suggestionToken minSuggestionCount
            (acc ++ [c]) cs
        else
          loadAndReduceClaimGo env restriction model suggestionToken minSuggestionCount acc cs
      | Except.error LoadError.notFound =>
        loadAndReduceClaimGo env restriction model suggestionToken minSuggestionCount acc cs
      | Except.error LoadError.notAuthorized =>
        loadAndReduceClaimGo env restriction model suggestionToken minSuggestionCount acc cs
      | Except.error LoadError.other => Except.error ()

/-- Claim C7's description of `_loadAndReduce` as a whole. -/
def loadAndReduceClaim (env : Env) (restriction : SearchRestriction)
    (results : List (Nat × Nat)) (suggestionToken : String) (minSuggestionCount : Nat) :
    Except Unit (List (Nat × Nat)) :=
  loadAndReduceClaimGo env restriction (env.resolveRef restriction.type) suggestionToken
    minSuggestionCount [] results

/-- Once the accumulator is full, the remaining fold is the identity: no
further candidate is loaded or added. -/
theorem loadAndReduce_foldlM_stop (env : Env) (restriction : SearchRestriction)
    (model : TypeModel) (suggestionToken : String) (minSuggestionCount : Nat)
    (cs : List (Nat × Nat)) (acc : List (Nat × Nat))
    (h : minSuggestionCount ≤ acc.length) :
    List.foldlM (loadAndReduceStep env restriction model suggestionToken minSuggestionCount)
      acc cs = Except.ok acc := by
  induction cs with
  | nil => rfl
  | cons c cs ih =>
    rw [List.foldlM_cons]
    have hstep : loadAndReduceStep env restriction model suggestionToken minSuggestionCount
        acc c = Except.ok acc := by
      unfold loadAndReduceStep
      rw [if_pos h]
      rfl
    rw [hstep]
    exact ih

/-- The fold of `_loadAndReduce` agrees with the early-stopping recursion at
every accumulator. -/
theorem loadAndReduce_foldlM_eq_go (env : Env) (restriction : SearchRestriction)
    (model : TypeModel) (suggestionToken : String) (minSuggestionCount : Nat)
    (cs : List (Nat × Nat)) (acc : List (Nat × Nat)) :
    List.foldlM (loadAndReduceStep env restriction model suggestionToken minSuggestionCount)
      acc cs
      = loadAndReduceClaimGo env restriction model suggestionToken minSuggestionCount acc cs := by
  induction cs generalizing acc with
  | nil => rfl
  | cons c cs ih =>
    rw [List.foldlM_cons]
    unfold loadAndReduceClaimGo
    by_cases h : minSuggestionCount ≤ acc.length
    · rw [if_pos h]
      have hstep : loadAndReduceStep env restriction model suggestionToken minSuggestionCount
          acc c = Except.ok acc := by
        unfold loadAndReduceStep
        rw [if_pos h]
        rfl
      rw [hstep]
      exact loadAndReduce_foldlM_stop env restriction model suggestionToken minSuggestionCount
        cs acc h
    · rw [if_neg h]
      unfold loadAndReduceStep
      rw [if_neg h]
      cases hl : env.loadEntity restriction.type c with
      | ok entity =>
        by_cases hc : containsSuggestionToken env model restriction.attributeIds suggestionToken
            entity = true
        · simp only [hc, if_true]
          exact ih (acc ++ [c])
        · simp only [hc, if_false]
          exact ih acc
      | error e =>
        cases e with
        | notFound => exact ih acc
        | notAuthorized => exact ih acc
        | other => rfl

/-- Claim C7: `_loadAndReduce` loads candidates one by one in result order,
stops adding as soon as `minSuggestionCount` candidates passed the check,
skips a candidate on `NotFound` or `NotAuthorized`, and propagates every
other load error. -/
theorem claim_C7_load_and_reduce (env : Env) (restriction : SearchRestriction)
    (results : List (Nat × Nat)) (suggestionToken : String) (minSuggestionCount : Nat) :
    loadAndReduce env restriction results suggestionToken minSuggestionCount
      = loadAndReduceClaim env restriction results suggestionToken minSuggestionCount := by
  unfold loadAndReduce loadAndReduceClaim
  cases results with
  | nil => rfl
  | cons c cs =>
    rw [if_pos (by simp)]
    exact loadAndReduce_foldlM_eq_go env restriction (env.resolveRef restriction.type)
      suggestionToken minSuggestionCount (c :: cs) []

/-- The key-bound invariant of the row-selection fold: starting from a state
whose selected rows and last-read key are below `k`, every selected row and
the final last-read key stay below `k`. -/
theorem selectRows_fold_bound (k : Nat) (rows : List ChunkDescriptor)
    (st : List ChunkDescriptor × Nat × Nat)
    (h1 : ∀ d ∈ st.1, d.key < k) (h2 : st.2.2 < k) :
    (∀ d ∈ (rows.foldl (fun st r =>
        if decide (r.key < k) && decide (st.2.1 < 1000)
        then (st.1 ++ [r], st.2.1 + r.size, r.key) else st) st).1, d.key < k)
    ∧ (rows.foldl (fun st r =>
        if decide (r.key < k) && decide (st.2.1 < 1000)
        then (st.1 ++ [r], st.2.1 + r.size, r.key) else st) st).2.2 < k := by
  induction rows generalizing st with
  | nil => exact ⟨h1, h2⟩
  | cons r rs ih =>
    simp only [List.foldl_cons]
    by_cases hc : (decide (r.key < k) && decide (st.2.1 < 1000)) = true
    · rw [if_pos hc]
      have hrk : r.key < k := by
        have := (Bool.and_eq_true _ _).mp hc
        exact of_decide_eq_true this.1
      apply ih
      · intro d hd
        rcases List.mem_append.mp hd with h | h
        · exact h1 d h
        · simp only [List.mem_singleton] at h
          exact h ▸ hrk
      · exact hrk
    · rw [if_neg hc]
      exact ih st h1 h2

/-- Claim C2 (amended): for a page run with a truthy `maxResults` and a term
whose stored cursor is a nonzero key `k`, the row selection reads only
descriptors with key strictly below `k` and stores a new cursor strictly
below `k`; when a page reads no descriptor for a term, or runs with a falsy
`maxResults`, the cursor resets to 0 and the next page re-reads from the
newest chunk (see the counterexample theorem). -/
theorem claim_C2_cursor_advance (rows : List ChunkDescriptor) (k : Nat) (m : Option Nat)
    (hm : truthyNum m = true) (hk : 0 < k) :
    (∀ d ∈ (selectRowsToRead rows (some k) m).1, d.key < k)
    ∧ (selectRowsToRead rows (some k) m).2 < k := by
  unfold selectRowsToRead
  rw [hm]
  have hkne : truthyNum (some k) = true := by
    simp [truthyNum]
    omega
  simp only [if_true, hkne, Bool.not_true, Bool.false_or, Option.getD_some]
  exact selectRows_fold_bound k rows ([], 0, 0) (by intro d hd; cases hd) hk

/-- Witness for the amended claim C2 at a concrete input. -/
theorem claim_C2_witness :
    truthyNum (some 1) = true ∧ 0 < 3
    ∧ ((∀ d ∈ (selectRowsToRead [⟨2, 1, 0, 0⟩] (some 3) (some 1)).1, d.key < 3)
        ∧ (selectRowsToRead [⟨2, 1, 0, 0⟩] (some 3) (some 1)).2 < 3) :=
  ⟨rfl, by decide, claim_C2_cursor_advance [⟨2, 1, 0, 0⟩] 3 (some 1) rfl (by decide)⟩

/-- The page pipeline keeps the token of every cursor row. -/
theorem startOrContinueSearch_tokens (env : Env) (sr : SearchResult) (m : Option Nat) :
    (startOrContinueSearch env sr m).lastReadSearchIndexRow.map (·.1)
      = sr.lastReadSearchIndexRow.map (·.1) := by
  unfold startOrContinueSearch findIndexEntries
  simp [findEntriesForSearchToken, List.map_map, Function.comp]

/-- Iterated `getMoreSearchResults` calls keep the token of every cursor row. -/
theorem applyGetMores_tokens (env : Env) (counts : List Nat) (sr : SearchResult) :
    (applyGetMores env sr counts).lastReadSearchIndexRow.map (·.1)
      = sr.lastReadSearchIndexRow.map (·.1) := by
  induction counts generalizing sr with
  | nil => rfl
  | cons c cs ih =>
    show (applyGetMores env (getMoreSearchResults env sr c) cs).lastReadSearchIndexRow.map (·.1)
      = _
    rw [ih]
    exact startOrContinueSearch_tokens env sr (some c)

/-- Claim C10: in the multi-term suggestion path, `search` pops the last
term's cursor row before running the AND-search, so the returned result
carries one cursor row fewer than the number of query terms — the rows are
exactly the terms without the last — and every later `getMoreSearchResults`
page still carries only those rows, so no page reads postings for the popped
row. -/
theorem claim_C10_last_row_removed (env : Env) (q : String) (r : SearchRestriction)
    (msc : Nat) (m : Option Nat) (sr : SearchResult)
    (hmsc : 0 < msc) (hlen : 2 ≤ (env.tokenize q).length)
    (hfac : r.type ∈ env.suggestionTypes)
    (hok : search env q r msc m = Except.ok sr) :
    sr.lastReadSearchIndexRow.map (·.1) = (env.tokenize q).dropLast
    ∧ sr.lastReadSearchIndexRow.length + 1 = (env.tokenize q).length
    ∧ ∀ counts : List Nat,
        (applyGetMores env sr counts).lastReadSearchIndexRow.map (·.1)
          = (env.tokenize q).dropLast := by
  simp only [search] at hok
  rw [if_pos (by omega)] at hok
  rw [if_neg (by rintro ⟨-, h1, -⟩; omega)] at hok
  rw [if_pos ⟨hmsc, by omega, hfac⟩] at hok
  split at hok
  case h_2 => exact absurd hok (by simp)
  case h_1 filteredResults heq =>
    cases hok
    have hrows : ∀ counts : List Nat,
        (applyGetMores env (sortResults
            { startOrContinueSearch env
                { initialSearchResult env q r with
                  lastReadSearchIndexRow :=
                    (initialSearchResult env q r).lastReadSearchIndexRow.dropLast }
                none with
              results := filteredResults }) counts).lastReadSearchIndexRow.map (·.1)
          = (env.tokenize q).dropLast := by
      intro counts
      rw [applyGetMores_tokens]
      show (startOrContinueSearch env _ none).lastReadSearchIndexRow.map (·.1) = _
      rw [startOrContinueSearch_tokens]
      show ((initialSearchResult env q r).lastReadSearchIndexRow.dropLast).map (·.1) = _
      show (((env.tokenize q).map (fun token => (token, (none : Option Nat)))).dropLast).map
        (·.1) = _
      rw [← List.map_dropLast, List.map_map]
      have hid : ((fun x : String × Option Nat => x.1) ∘ fun token : String =>
          (token, (none : Option Nat))) = id := rfl
      rw [hid, List.map_id]
    refine ⟨?_, ?_, hrows⟩
    · have := hrows []
      exact this
    · have hlen1 : (sortResults
          { startOrContinueSearch env
              { initialSearchResult env q r with
                lastReadSearchIndexRow :=
                  (initialSearchResult env q r).lastReadSearchIndexRow.dropLast }
              none with
            results := filteredResults }).lastReadSearchIndexRow.map (·.1)
          = (env.tokenize q).dropLast := hrows []
      have := congrArg List.length hlen1
      simp only [List.length_map, List.length_dropLast] at this
      omega

/-- The snapshot for claim C10's witness: a two-token query with a suggestion
facade registered for the restriction type. -/
def envC10 : Env :=
  { env0 with tokenize := fun _ => ["a", "b"], suggestionTypes := [(0, 0)] }

/-- The concrete result of the multi-term suggestion search of the witness. -/
def srC10 : SearchResult :=
  (search envC10 "a b" rPlain 1 none).toOption.getD (initialSearchResult envC10 "a b" rPlain)

/-- Witness for claim C10 at a concrete input. -/
theorem claim_C10_witness :
    (0 < 1 ∧ 2 ≤ (envC10.tokenize "a b").length ∧ rPlain.type ∈ envC10.suggestionTypes)
    ∧ srC10.lastReadSearchIndexRow.map (·.1) = (envC10.tokenize "a b").dropLast :=
  ⟨⟨by decide, by decide, by decide⟩,
    (claim_C10_last_row_removed envC10 "a b" rPlain 1 none srC10 (by decide) (by decide)
      (by decide) rfl).1⟩

/-- Membership in the AND-merge seeded with a first set. -/
theorem membOpt_intersectMemb_some (s : List Nat) (ls : List (List Nat)) (x : Nat) :
    membOpt (intersectMemb (some s) ls) x = true ↔ (x ∈ s ∧ ∀ l ∈ ls, x ∈ l) := by
  induction ls generalizing s with
  | nil => simp [intersectMemb, membOpt, List.elem_iff]
  | cons l ls ih =>
    show membOpt (intersectMemb (some (l.filter (s.contains ·))) ls) x = true ↔ _
    rw [ih]
    simp only [List.mem_filter, List.elem_iff, List.mem_cons]
    constructor
    · rintro ⟨⟨hl, hs⟩, hrest⟩
      exact ⟨hs, fun l' hl' => by rcases hl' with rfl | hl' ; exact hl; exact hrest l' hl'⟩
    · rintro ⟨hs, hall⟩
      exact ⟨⟨hall l (Or.inl rfl), hs⟩, fun l' hl' => hall l' (Or.inr hl')⟩

/-- Membership in the AND-merge of a nonempty family is membership in every
member. -/
theorem membOpt_intersectMemb (L : List (List Nat)) (x : Nat) (hne : L ≠ []) :
    membOpt (intersectMemb none L) x = true ↔ ∀ l ∈ L, x ∈ l := by
  cases L with
  | nil => exact absurd rfl hne
  | cons l0 ls =>
    show membOpt (intersectMemb (some l0) ls) x = true ↔ _
    rw [membOpt_intersectMemb_some]
    simp

/-- Every gathered entry carries the hash of its own id. -/
theorem findEntries_wf (env : Env) (r : SearchRestriction) (ti : String × Option Nat)
    (m : Option Nat) :
    ∀ ee ∈ (findEntriesForSearchToken env r ti m).2.indexEntries,
      ee.idHash = env.idHash ee.entry.id := by
  intro ee h
  simp only [findEntriesForSearchToken, List.mem_map] at h
  obtain ⟨e, _, rfl⟩ := h
  rfl

/-- The per-token composite of the hash filter, decryption, and the
attribute/time per-entry filter, with the hash matching set `H` as a
parameter (a proof-layer name for the composition of the pipeline stages). -/
def tokenPhaseFilters (env : Env) (r : SearchRestriction) (H : Option (List Nat))
    (kte : KeyToEncryptedIndexEntries) : List SearchIndexEntry :=
  ((kte.indexEntries.filter (fun e => membOpt H e.idHash)).map (·.entry)).filter
    (fun e => acceptEntry env r e)

/-- The hash matching set computed by `_filterByEncryptedId`. -/
def hashInter (L : List KeyToEncryptedIndexEntries) : Option (List Nat) :=
  intersectMemb none (L.map (fun kte => kte.indexEntries.map (·.idHash)))

/-- The id matching set computed by `_filterByTypeAndAttributeAndTime` when
run after the hash filter and decryption. -/
def idInter (env : Env) (r : SearchRestriction) (L : List KeyToEncryptedIndexEntries) :
    Option (List Nat) :=
  intersectMemb none (L.map (fun kte => (tokenPhaseFilters env r (hashInter L) kte).map (·.id)))

/-- The first three filter stages of the page pipeline, re-expressed as one
map over the token lists. -/
theorem pipeline_eq (env : Env) (r : SearchRestriction)
    (L : List KeyToEncryptedIndexEntries) :
    filterByTypeAndAttributeAndTime env (decryptSearchResult (filterByEncryptedId L)) r
      = L.map (fun kte =>
          { indexKey := kte.indexKey
            indexEntries := (tokenPhaseFilters env r (hashInter L) kte).filter
              (fun e => membOpt (idInter env r L) e.id) }) := by
  simp only [filterByEncryptedId, decryptSearchResult, filterByTypeAndAttributeAndTime,
    List.map_map]
  rfl

/-- Membership of an id among a token list's entries after the hash filter,
decryption, and the per-entry attribute/time filter. -/
theorem mem_T_ids (env : Env) (r : SearchRestriction) (H : Option (List Nat))
    (kte : KeyToEncryptedIndexEntries) (x : Nat)
    (hWF : ∀ ee ∈ kte.indexEntries, ee.idHash = env.idHash ee.entry.id) :
    (x ∈ (tokenPhaseFilters env r H kte).map (·.id))
    ↔ (membOpt H (env.idHash x) = true
        ∧ ∃ ee ∈ kte.indexEntries, ee.entry.id = x ∧ acceptEntry env r ee.entry = true) := by
  unfold tokenPhaseFilters
  simp only [List.mem_map, List.mem_filter]
  constructor
  · rintro ⟨e, ⟨⟨ee, ⟨hee, hH⟩, rfl⟩, hacc⟩, rfl⟩
    rw [hWF ee hee] at hH
    exact ⟨hH, ee, hee, rfl, hacc⟩
  · rintro ⟨hH, ee, hee, hid, hacc⟩
    refine ⟨ee.entry, ⟨⟨ee, ⟨hee, ?_⟩, rfl⟩, hacc⟩, hid⟩
    rw [hWF ee hee, hid]
    exact hH

/-- The id set of the first token's list after the hash filter, decryption,
the attribute/time filter, and the id intersection is symmetric in the token
lists: an id occurs there exactly when every token list has an accepted entry
with that id. -/
theorem mem_ids_head_pipeline (env : Env) (r : SearchRestriction)
    (l0 : KeyToEncryptedIndexEntries) (ls : List KeyToEncryptedIndexEntries)
    (hWF : ∀ kte ∈ l0 :: ls, ∀ ee ∈ kte.indexEntries, ee.idHash = env.idHash ee.entry.id)
    (x : Nat) :
    (x ∈ (reduceWords (filterByTypeAndAttributeAndTime env
          (decryptSearchResult (filterByEncryptedId (l0 :: ls))) r) false).map (·.id))
    ↔ ∀ kte ∈ l0 :: ls, ∃ ee ∈ kte.indexEntries,
        ee.entry.id = x ∧ acceptEntry env r ee.entry = true := by
  rw [pipeline_eq, List.map_cons]
  show (x ∈ ((tokenPhaseFilters env r (hashInter (l0 :: ls)) l0).filter
      (fun e => membOpt (idInter env r (l0 :: ls)) e.id)).map (·.id)) ↔ _
  constructor
  · intro hx
    rw [List.mem_map] at hx
    obtain ⟨e, he, rfl⟩ := hx
    rw [List.mem_filter] at he
    obtain ⟨heT, heI⟩ := he
    unfold idInter at heI
    have hIall := (membOpt_intersectMemb _ e.id (by simp)).mp heI
    intro kte hkte
    have hmem : e.id ∈ (tokenPhaseFilters env r (hashInter (l0 :: ls)) kte).map (·.id) :=
      hIall _ (List.mem_map_of_mem _ hkte)
    exact ((mem_T_ids env r _ kte e.id (hWF kte hkte)).mp hmem).2
  · intro hall
    have hH : membOpt (hashInter (l0 :: ls)) (env.idHash x) = true := by
      unfold hashInter
      rw [membOpt_intersectMemb _ _ (by simp)]
      intro hl hhl
      rw [List.mem_map] at hhl
      obtain ⟨kte, hkte, rfl⟩ := hhl
      obtain ⟨ee, hee, hid, -⟩ := hall kte hkte
      exact List.mem_map.mpr ⟨ee, hee, by rw [hWF kte hkte ee hee, hid]⟩
    have hT : ∀ kte, kte ∈ l0 :: ls →
        x ∈ (tokenPhaseFilters env r (hashInter (l0 :: ls)) kte).map (·.id) :=
      fun kte hk => (mem_T_ids env r _ kte x (hWF kte hk)).mpr ⟨hH, hall kte hk⟩
    have hI : membOpt (idInter env r (l0 :: ls)) x = true := by
      unfold idInter
      rw [membOpt_intersectMemb _ _ (by simp)]
      intro l hml
      rw [List.mem_map] at hml
      obtain ⟨kte, hkte, rfl⟩ := hml
      exact hT kte hkte
    obtain ⟨e, heT, heq⟩ := List.mem_map.mp (hT l0 (List.mem_cons_self _ _))
    refine List.mem_map.mpr ⟨e, List.mem_filter.mpr ⟨heT, ?_⟩, heq⟩
    rw [heq]
    exact hI

/-- The de-duplication fold keeps exactly the first entry of each id not
already present, from any well-formed intermediate state. -/
theorem uniqueFold_spec (prev : SearchResult) (results : List SearchIndexEntry)
    (seen : List Nat) (acc : List SearchIndexEntry)
    (hseen : ∀ y, y ∈ seen ↔ y ∈ acc.map (·.id))
    (hnd : (acc.map (·.id)).Nodup) :
    ((results.foldl (uniqueStep prev) (seen, acc)).2.map (·.id)).Nodup
    ∧ ∀ x, (x ∈ (results.foldl (uniqueStep prev) (seen, acc)).2.map (·.id)
        ↔ (x ∈ acc.map (·.id)
            ∨ (x ∈ results.map (·.id)
                ∧ prev.results.any (fun rr => rr.2 == x) = false))) := by
  induction results generalizing seen acc with
  | nil =>
    refine ⟨hnd, fun x => ?_⟩
    simp
  | cons e rest ih =>
    simp only [List.foldl_cons]
    by_cases hc : (!seen.contains e.id
        && !prev.results.any (fun rr => rr.2 == e.id)) = true
    · simp only [Bool.and_eq_true, Bool.not_eq_true'] at hc
      have hstep : uniqueStep prev (seen, acc) e = (e.id :: seen, acc ++ [e]) := by
        unfold uniqueStep
        dsimp only
        rw [hc.1, hc.2]
        rfl
      rw [hstep]
      have hnotacc : e.id ∉ acc.map (·.id) := fun h => by
        have hE : seen.elem e.id = true := List.elem_iff.mpr ((hseen e.id).mpr h)
        have hF : seen.elem e.id = false := hc.1
        rw [hE] at hF
        cases hF
      have hseen2 : ∀ y, y ∈ e.id :: seen ↔ y ∈ (acc ++ [e]).map (·.id) := by
        intro y
        simp only [List.mem_cons, hseen y, List.map_append, List.mem_append,
          List.map_cons, List.map_nil, List.mem_singleton, List.not_mem_nil, or_false]
        tauto
      have hnd2 : ((acc ++ [e]).map (·.id)).Nodup := by
        simp only [List.map_append, List.map_cons, List.map_nil]
        rw [List.nodup_append]
        exact ⟨hnd, List.nodup_singleton _, by
          intro a ha hb
          simp only [List.mem_singleton] at hb
          exact hnotacc (hb ▸ ha)⟩
      obtain ⟨nd2, mem2⟩ := ih (e.id :: seen) (acc ++ [e]) hseen2 hnd2
      refine ⟨nd2, fun x => ?_⟩
      rw [mem2 x]
      have hEP : x = e.id → prev.results.any (fun rr => rr.2 == x) = false :=
        fun hx => hx ▸ hc.2
      simp only [List.map_append, List.map_cons, List.map_nil, List.mem_append,
        List.mem_singleton, List.mem_cons, List.not_mem_nil, or_false]
      tauto
    · have hcase : seen.contains e.id = true
          ∨ prev.results.any (fun rr => rr.2 == e.id) = true := by
        cases h1 : seen.contains e.id with
        | true => exact Or.inl rfl
        | false =>
          cases h2 : prev.results.any (fun rr => rr.2 == e.id) with
          | true => exact Or.inr rfl
          | false => exact absurd (by rw [h1, h2]; rfl) hc
      have hstep : uniqueStep prev (seen, acc) e = (seen, acc) := by
        unfold uniqueStep
        dsimp only
        rcases hcase with h | h
        · rw [h]
          rfl
        · rw [h]
          simp
      rw [hstep]
      obtain ⟨nd2, mem2⟩ := ih seen acc hseen hnd
      refine ⟨nd2, fun x => ?_⟩
      rw [mem2 x]
      have key : x = e.id → prev.results.any (fun rr => rr.2 == x) = false →
          x ∈ acc.map (·.id) := by
        intro hx hp
        subst hx
        rcases hcase with h | h
        · exact (hseen _).mp (List.elem_iff.mp h)
        · rw [hp] at h
          cases h
      simp only [List.map_cons, List.mem_cons]
      tauto

/-- The ids kept by `_reduceToUniqueElementIds` have no duplicates. -/
theorem reduceToUnique_nodup (results : List SearchIndexEntry) (prev : SearchResult) :
    ((reduceToUniqueElementIds results prev).map (·.id)).Nodup :=
  (uniqueFold_spec prev results [] [] (fun y => by simp) (by simp)).1

/-- An id survives `_reduceToUniqueElementIds` exactly when it occurs in the
input and not among the previous results. -/
theorem mem_reduceToUnique (results : List SearchIndexEntry) (prev : SearchResult) (x : Nat) :
    x ∈ (reduceToUniqueElementIds results prev).map (·.id)
      ↔ (x ∈ results.map (·.id)
          ∧ prev.results.any (fun rr => rr.2 == x) = false) := by
  unfold reduceToUniqueElementIds
  rw [(uniqueFold_spec prev results [] [] (fun y => by simp) (by simp)).2 x]
  simp

/-- The newest-first entry sort acts on the ids as the descending id sort. -/
theorem insertNewestEntry_map_id (e : SearchIndexEntry) (l : List SearchIndexEntry) :
    (insertNewestEntry e l).map (·.id) = insertIdDesc e.id (l.map (·.id)) := by
  induction l with
  | nil => rfl
  | cons x xs ih =>
    simp only [insertNewestEntry, List.map_cons, insertIdDesc]
    by_cases h : e.id > x.id
    · rw [if_pos h, if_pos h]
      simp
    · rw [if_neg h, if_neg h]
      simp [ih]

/-- `sort(compareNewestFirst)` on entries projects to the descending id sort. -/
theorem sortNewestFirst_map_id (l : List SearchIndexEntry) :
    (sortNewestFirst l).map (·.id) = idSortDesc (l.map (·.id)) := by
  induction l with
  | nil => rfl
  | cons x xs ih =>
    show (insertNewestEntry x (sortNewestFirst xs)).map (·.id) = _
    rw [insertNewestEntry_map_id, ih]
    rfl

/-- The descending id insertion permutes. -/
theorem insertIdDesc_perm (x : Nat) (l : List Nat) : (insertIdDesc x l).Perm (x :: l) := by
  induction l with
  | nil => exact List.Perm.refl _
  | cons y ys ih =>
    unfold insertIdDesc
    by_cases h : x > y
    · rw [if_pos h]
    · rw [if_neg h]
      exact (List.Perm.cons y ih).trans (List.Perm.swap x y ys)

/-- The descending id sort permutes. -/
theorem idSortDesc_perm (l : List Nat) : (idSortDesc l).Perm l := by
  induction l with
  | nil => exact List.Perm.refl _
  | cons x xs ih =>
    show (insertIdDesc x (idSortDesc xs)).Perm _
    exact (insertIdDesc_perm x (idSortDesc xs)).trans (List.Perm.cons x ih)

/-- The descending id insertion preserves sortedness. -/
theorem insertIdDesc_sorted (x : Nat) (l : List Nat) (h : l.Sorted (· ≥ ·)) :
    (insertIdDesc x l).Sorted (· ≥ ·) := by
  induction l with
  | nil => simp [insertIdDesc]
  | cons y ys ih =>
    rw [List.sorted_cons] at h
    unfold insertIdDesc
    by_cases hxy : x > y
    · rw [if_pos hxy]
      rw [List.sorted_cons]
      refine ⟨?_, List.sorted_cons.mpr h⟩
      intro b hb
      rcases List.mem_cons.mp hb with rfl | hb'
      · omega
      · have := h.1 b hb'
        omega
    · rw [if_neg hxy]
      rw [List.sorted_cons]
      refine ⟨?_, ih h.2⟩
      intro b hb
      have hb' := (insertIdDesc_perm x ys).mem_iff.mp hb
      rcases List.mem_cons.mp hb' with rfl | hb''
      · omega
      · exact h.1 b hb''

/-- The descending id sort sorts. -/
theorem idSortDesc_sorted (l : List Nat) : (idSortDesc l).Sorted (· ≥ ·) := by
  induction l with
  | nil => simp [idSortDesc]
  | cons x xs ih => exact insertIdDesc_sorted x (idSortDesc xs) ih

/-- Two duplicate-free lists with the same members have the same descending
sort. -/
theorem idSortDesc_eq_of_nodup (l1 l2 : List Nat) (h1 : l1.Nodup) (h2 : l2.Nodup)
    (hm : ∀ x, x ∈ l1 ↔ x ∈ l2) : idSortDesc l1 = idSortDesc l2 := by
  have hp : l1.Perm l2 := (List.perm_ext_iff_of_nodup h1 h2).mpr hm
  exact List.eq_of_perm_of_sorted
    ((idSortDesc_perm l1).trans (hp.trans (idSortDesc_perm l2).symm))
    (idSortDesc_sorted l1) (idSortDesc_sorted l2)

/-- The result assembler's fold touches an entry only through its id. -/
theorem foldl_by_ids (env : Env) (LID : Option Nat) (m : Option Nat)
    (l : List SearchIndexEntry) (init : List (Nat × Nat)) :
    l.foldl (fun res e =>
      if truthyNum m && decide (res.length ≥ m.getD 0) then res
      else
        match env.elementListId e.id with
        | some listId =>
          if (match LID with | none => true | some l2 => l2 == listId) then
            res ++ [(listId, e.id)]
          else res
        | none => res) init
    = (l.map (·.id)).foldl (fun res i =>
      if truthyNum m && decide (res.length ≥ m.getD 0) then res
      else
        match env.elementListId i with
        | some listId =>
          if (match LID with | none => true | some l2 => l2 == listId) then
            res ++ [(listId, i)]
          else res
        | none => res) init := by
  rw [List.foldl_map]

/-- The result assembler produces equal results from entry lists whose sorted
id sequences agree, previous results and listId restriction being equal. -/
theorem filterByListId_eq_of_ids (env : Env) (l l' : List SearchIndexEntry)
    (sr sr' : SearchResult) (m : Option Nat)
    (hres : sr.results = sr'.results)
    (hlid : sr.restriction.listId = sr'.restriction.listId)
    (hids : (sortNewestFirst l).map (·.id) = (sortNewestFirst l').map (·.id)) :
    filterByListIdAndGroupSearchResults env l sr m
      = filterByListIdAndGroupSearchResults env l' sr' m := by
  have hlen : (sortNewestFirst l).length = (sortNewestFirst l').length := by
    have h := congrArg List.length hids
    simpa using h
  simp only [filterByListIdAndGroupSearchResults]
  simp only [hres, hlid]
  rw [foldl_by_ids env sr'.restriction.listId m, foldl_by_ids env sr'.restriction.listId m,
    List.map_take, List.map_take, hids, hlen]

/-- The page pipeline's results, spelled out. -/
theorem startOrContinueSearch_results (env : Env) (sr : SearchResult) (m : Option Nat) :
    (startOrContinueSearch env sr m).results
      = filterByListIdAndGroupSearchResults env
          (reduceToUniqueElementIds
            (reduceWords (filterByTypeAndAttributeAndTime env
              (decryptSearchResult (filterByEncryptedId (findIndexEntries env sr m).2))
              sr.restriction) sr.matchWordOrder)
            { sr with lastReadSearchIndexRow := (findIndexEntries env sr m).1 })
          { sr with lastReadSearchIndexRow := (findIndexEntries env sr m).1 } m := rfl

/-- Membership of an id in the reduced first-word list of a page over a
nonempty token list, characterised per token. -/
theorem page_ids_iff (env : Env) (r : SearchRestriction) (m : Option Nat)
    (tokens : List String) (t0 : String) (ts : List String) (hts : tokens = t0 :: ts)
    (x : Nat) :
    (x ∈ (reduceWords (filterByTypeAndAttributeAndTime env (decryptSearchResult
        (filterByEncryptedId
          (tokens.map (fun t => (findEntriesForSearchToken env r (t, none) m).2)))) r)
        false).map (·.id))
    ↔ ∀ t ∈ tokens, ∃ ee ∈ (findEntriesForSearchToken env r (t, none) m).2.indexEntries,
        ee.entry.id = x ∧ acceptEntry env r ee.entry = true := by
  subst hts
  rw [List.map_cons]
  rw [mem_ids_head_pipeline env r _ _ ?wf x]
  case wf =>
    intro kte hk
    have hk2 : kte ∈ (t0 :: ts).map (fun t => (findEntriesForSearchToken env r (t, none) m).2) := by
      rw [List.map_cons]
      exact hk
    obtain ⟨t, -, rfl⟩ := List.mem_map.mp hk2
    exact findEntries_wf env r (t, none) m
  constructor
  · intro h t ht
    exact h _ (List.mem_map_of_mem (fun t => (findEntriesForSearchToken env r (t, none) m).2) ht)
  · intro h kte hk
    have hk2 : kte ∈ (t0 :: ts).map (fun t => (findEntriesForSearchToken env r (t, none) m).2) := by
      rw [List.map_cons]
      exact hk
    obtain ⟨t, ht, rfl⟩ := List.mem_map.mp hk2
    exact h t ht

/-- The gathered token lists of a fresh page, as a map over the tokens. -/
theorem findIndexEntries_initial (env : Env) (qq : String) (r : SearchRestriction)
    (m : Option Nat) :
    (findIndexEntries env (initialSearchResult env qq r) m).2
      = (env.tokenize qq).map (fun t => (findEntriesForSearchToken env r (t, none) m).2) := by
  simp only [findIndexEntries, initialSearchResult, List.map_map]
  rfl

/-- Page results of the plain pipeline on a fresh result are invariant under
permuting the query tokens when `matchWordOrder` is off. -/
theorem page_results_perm (env : Env) (q q' : String) (r : SearchRestriction) (m : Option Nat)
    (hperm : (env.tokenize q').Perm (env.tokenize q))
    (hw : queryMatchWordOrder env q = false) (hw2 : queryMatchWordOrder env q' = false)
    (hne : env.tokenize q ≠ []) :
    (startOrContinueSearch env (initialSearchResult env q' r) m).results
      = (startOrContinueSearch env (initialSearchResult env q r) m).results := by
  have hne2 : env.tokenize q' ≠ [] := by
    intro h
    rw [h] at hperm
    exact hne (List.Perm.eq_nil hperm.symm)
  obtain ⟨t0, ts, hts⟩ := List.exists_cons_of_ne_nil hne
  obtain ⟨t0', ts', hts2⟩ := List.exists_cons_of_ne_nil hne2
  rw [startOrContinueSearch_results, startOrContinueSearch_results]
  rw [findIndexEntries_initial, findIndexEntries_initial]
  rw [show (initialSearchResult env q' r).matchWordOrder = queryMatchWordOrder env q' from rfl,
    show (initialSearchResult env q r).matchWordOrder = queryMatchWordOrder env q from rfl,
    hw, hw2]
  rw [show (initialSearchResult env q' r).restriction = r from rfl,
    show (initialSearchResult env q r).restriction = r from rfl]
  apply filterByListId_eq_of_ids env _ _ _ _ m rfl rfl
  rw [sortNewestFirst_map_id, sortNewestFirst_map_id]
  apply idSortDesc_eq_of_nodup _ _ (reduceToUnique_nodup _ _) (reduceToUnique_nodup _ _)
  intro x
  rw [mem_reduceToUnique, mem_reduceToUnique]
  rw [page_ids_iff env r m _ t0' ts' hts2 x, page_ids_iff env r m _ t0 ts hts x]
  have hany : ∀ qq : String,
      ({ initialSearchResult env qq r with
          lastReadSearchIndexRow :=
            (findIndexEntries env (initialSearchResult env qq r) m).1 }).results.any
        (fun rr => rr.2 == x) = false := fun _ => rfl
  rw [hany q, hany q']
  constructor
  · rintro ⟨h, -⟩
    exact ⟨fun t ht => h t (hperm.mem_iff.mpr ht), rfl⟩
  · rintro ⟨h, -⟩
    exact ⟨fun t ht => h t (hperm.mem_iff.mp ht), rfl⟩

set_option maxHeartbeats 1600000 in
/-- Claim C9: with `matchWordOrder` off and no suggestion filtering, two
queries whose token lists are permutations of each other produce the same
result list from `search` (same (listId, id) pairs, and even in the same
order, since the assembler sorts newest first over the same duplicate-free id
set). -/
theorem claim_C9_token_perm (env : Env) (q q' : String) (r : SearchRestriction) (m : Option Nat)
    (hperm : (env.tokenize q').Perm (env.tokenize q))
    (hw : queryMatchWordOrder env q = false) (hw2 : queryMatchWordOrder env q' = false) :
    (search env q' r 0 m).toOption.map (·.results)
      = (search env q r 0 m).toOption.map (·.results) := by
  by_cases hne : env.tokenize q = []
  · have hne2 : env.tokenize q' = [] := List.Perm.eq_nil (hne ▸ hperm)
    simp only [search]
    rw [if_neg (by simp [hne2]), if_neg (by simp [hne])]
    rfl
  · have hne2 : env.tokenize q' ≠ [] := fun h => hne (List.Perm.eq_nil (h ▸ hperm).symm)
    simp only [search]
    rw [if_pos (List.length_pos.mpr hne2), if_pos (List.length_pos.mpr hne)]
    rw [if_neg (by rintro ⟨h, -, -⟩; exact absurd h (lt_irrefl 0)),
      if_neg (by rintro ⟨h, -, -⟩; exact absurd h (lt_irrefl 0)),
      if_neg (by rintro ⟨h, -, -⟩; exact absurd h (lt_irrefl 0)),
      if_neg (by rintro ⟨h, -, -⟩; exact absurd h (lt_irrefl 0))]
    show some (sortResults (startOrContinueSearch env (initialSearchResult env q' r) m)).results
      = some (sortResults (startOrContinueSearch env (initialSearchResult env q r) m)).results
    rw [show (sortResults (startOrContinueSearch env (initialSearchResult env q' r) m)).results
        = sortPairsNewestFirst (startOrContinueSearch env (initialSearchResult env q' r) m).results
        from rfl,
      show (sortResults (startOrContinueSearch env (initialSearchResult env q r) m)).results
        = sortPairsNewestFirst (startOrContinueSearch env (initialSearchResult env q r) m).results
        from rfl,
      page_results_perm env q q' r m hperm hw hw2 hne]

/-- The snapshot for claim C9's witness: two tokens posting the same id 100
in their own chunks, with two queries tokenizing to the two orders. -/
def envC9 : Env :=
  { env0 with
    tokenize := fun s =>
      if s == "a b" then ["alpha", "beta"]
      else if s == "b a" then ["beta", "alpha"] else []
    meta := fun t =>
      if t == "alpha" then [⟨1, 1, 0, 0⟩]
      else if t == "beta" then [⟨2, 1, 0, 0⟩] else []
    chunk := fun k =>
      if k == 1 then [⟨100, 1, [1]⟩]
      else if k == 2 then [⟨100, 2, [5]⟩] else [] }

/-- Witness for claim C9 at a concrete input. -/
theorem claim_C9_witness :
    ((envC9.tokenize "b a").Perm (envC9.tokenize "a b")
      ∧ queryMatchWordOrder envC9 "a b" = false ∧ queryMatchWordOrder envC9 "b a" = false)
    ∧ (search envC9 "b a" rPlain 0 (some 5)).toOption.map (·.results)
        = (search envC9 "a b" rPlain 0 (some 5)).toOption.map (·.results) :=
  ⟨⟨by decide, by decide, by decide⟩,
    claim_C9_token_perm envC9 "a b" "b a" rPlain (some 5) (by decide) (by decide) (by decide)⟩

end TutanotaSearch
